import Mathlib

/-!
# golang-tplink-hs100: the connector and the relay commands

A shallow embedding of `internal/connector/connector.go` and of the relay part
of `pkg/hs100/hs100.go`.

* A Go `string` or `[]byte` is a list of bytes; a byte is a natural number
  (below 256 for every value the program really handles).
* A connection is a value: what the peer will deliver, what the connection
  still accepts, and the record of the calls made on it so far.  Every
  operation returns the connection it leaves behind.
* `net`, `bufio`, `io` and `encoding/binary` are modelled after the library
  code the connector calls; `internal/crypto` is not part of the sources at
  hand and is modelled after the specification.
-/

namespace TplinkHs100

/-- A Go `string` or `[]byte`: a sequence of bytes. -/
abbrev Bytes := List Nat

/-- The Go `error` values that occur. -/
inductive GoError where
  | EOF
  | ErrShortWrite
  | net (code : Nat)
  | json (code : Nat)
  | errorsNew (msg : String)
  | wrap (cause : GoError) (msg : String)
deriving DecidableEq, Repr

/-! ## internal/crypto -/

namespace crypto

/-- Modelled from the spec: the initial value of the running key of
`internal/crypto`, whose source is missing ("initialize key = 0xAB"). -/
def initialKey : Nat := 0xAB

/-- Modelled from the spec: the loop of `crypto.Encrypt`, whose source is
missing, from a given key: `c = p XOR key`, emit `c`, continue with `key = c`. -/
def encryptFrom (key : Nat) : Bytes → Bytes
  | [] => []
  | p :: rest => (p ^^^ key) :: encryptFrom (p ^^^ key) rest

/-- Modelled from the spec: the loop of `crypto.Decrypt`, whose source is
missing, from a given key: `p = c XOR key`, emit `p`, continue with `key = c`. -/
def decryptFrom (key : Nat) : Bytes → Bytes
  | [] => []
  | c :: rest => (c ^^^ key) :: decryptFrom c rest

/-- Modelled from the spec: `crypto.Encrypt` of the package `internal/crypto`,
whose source is missing. Section 4.1: "initialize key = 0xAB. For each plaintext
byte p in order: c = p XOR key; append c to output; set key = c." -/
def Encrypt (plaintext : Bytes) : Bytes :=
  encryptFrom initialKey plaintext

/-- Modelled from the spec: `crypto.Decrypt` of the package `internal/crypto`,
whose source is missing. Section 4.1: "initialize key = 0xAB. For each ciphertext
byte c in order: p = c XOR key; append p to output; set key = c." -/
def Decrypt (ciphertext : Bytes) : Bytes :=
  decryptFrom initialKey ciphertext

/-- Modelled from the spec: the 4-byte big-endian length header of
`internal/crypto`, whose source is missing ("a 4-byte big-endian encoding of
len(ciphertext)"); the length is stored as an unsigned 32-bit number. -/
def header (n : Nat) : Bytes :=
  [(n % 2 ^ 32) >>> 24 % 256, (n % 2 ^ 32) >>> 16 % 256, (n % 2 ^ 32) >>> 8 % 256,
    (n % 2 ^ 32) % 256]

/-- Modelled from the spec: `crypto.EncryptWithHeader` of the package
`internal/crypto`, whose source is missing. Section 4.1: "compute ciphertext =
Encrypt(plaintext); prepend a 4-byte big-endian encoding of len(ciphertext);
return header‖ciphertext." -/
def EncryptWithHeader (plaintext : Bytes) : Bytes :=
  header (Encrypt plaintext).length ++ Encrypt plaintext

end crypto

/-! ## net: a TCP connection -/

/-- One call made on a connection. -/
inductive Event where
  | write (p : Bytes)
  | read (size : Nat) (got : Bytes) (err : Option GoError)
  | close
deriving DecidableEq, Repr

/-- A TCP connection.

* `incoming`: the segments the peer delivers, in order; a `Read` returns bytes
  of the first segment that still has some, at most as many as its buffer holds,
  and leaves the others for later reads;
* `terminal`: what `Read` reports once every segment is used up (`EOF` when the
  peer closed the stream);
* `writeFault`: `some (k, e)` when the connection accepts `k` more bytes and then
  fails every `Write` with `e`; `none` when every `Write` succeeds;
* `trace`: the calls made so far, oldest first. -/
structure Conn where
  incoming : List Bytes
  terminal : GoError
  writeFault : Option (Nat × GoError)
  trace : List Event
deriving DecidableEq, Repr

/-- The bytes the next `Read` with a buffer of `size > 0` bytes obtains and the
segments left afterwards; `none` when the stream holds nothing more. -/
def recv : List Bytes → Nat → Option (Bytes × List Bytes)
  | [], _ => none
  | [] :: rest, size => recv rest size
  | (b :: seg) :: rest, size => some ((b :: seg).take size, (b :: seg).drop size :: rest)

/-- `conn.Read(p)` with `len(p) = size`: the bytes stored at the front of `p`,
the error, and the connection afterwards. A TCP read returns either at least one
byte and no error, or no byte and an error; a read into an empty buffer returns
at once. -/
def Conn.Read (c : Conn) (size : Nat) : Bytes × Option GoError × Conn :=
  if size = 0 then
    ([], none, { c with trace := c.trace ++ [Event.read 0 [] none] })
  else
    match recv c.incoming size with
    | none =>
      ([], some c.terminal,
        { c with incoming := [], trace := c.trace ++ [Event.read size [] (some c.terminal)] })
    | some (got, rest) =>
      (got, none, { c with incoming := rest, trace := c.trace ++ [Event.read size got none] })

/-- `conn.Write(p)`: the number of bytes accepted, the error, and the connection
afterwards. A TCP write accepts all of `p` or fails. -/
def Conn.Write (c : Conn) (p : Bytes) : Nat × Option GoError × Conn :=
  match c.writeFault with
  | none => (p.length, none, { c with trace := c.trace ++ [Event.write p] })
  | some (k, e) =>
    if p.length ≤ k then
      (p.length, none,
        { c with writeFault := some (k - p.length, e), trace := c.trace ++ [Event.write p] })
    else
      (k, some e, { c with writeFault := some (0, e), trace := c.trace ++ [Event.write p] })

/-- `conn.Close()`; the connector discards its result. -/
def Conn.Close (c : Conn) : Conn :=
  { c with trace := c.trace ++ [Event.close] }

/-- The number of `Close` calls made on the connection. -/
def Conn.closeCount (c : Conn) : Nat :=
  c.trace.count Event.close

/-- The arguments of the `Write` calls made on the connection, oldest first. -/
def writesOf : List Event → List Bytes
  | [] => []
  | Event.write p :: rest => p :: writesOf rest
  | _ :: rest => writesOf rest

/-- Whether the event is a `Read`. -/
def Event.isRead : Event → Bool
  | Event.read _ _ _ => true
  | _ => false

/-- What the far end of a freshly dialled connection will do. -/
structure Peer where
  incoming : List Bytes
  terminal : GoError
  writeFault : Option (Nat × GoError)
deriving DecidableEq, Repr

/-- The connection `net.DialTimeout` hands back for a peer: nothing called yet. -/
def Peer.connect (p : Peer) : Conn :=
  { incoming := p.incoming, terminal := p.terminal, writeFault := p.writeFault, trace := [] }

/-- The network: for the dialled address and the timeout (in nanoseconds),
either the dial error or the peer that answers. -/
structure Network where
  DialTimeout : Bytes → Int → Except GoError Peer

/-! ## bufio, io, encoding/binary -/

namespace bufio

/-- The buffer size of `bufio.NewWriter`. -/
def defaultBufSize : Nat := 4096

/-- A `bufio.Writer`: the bytes buffered and the sticky error. -/
structure Writer where
  buf : Bytes
  err : Option GoError
deriving DecidableEq, Repr

/-- `bufio.NewWriter(conn).Write(p)`, the first `Write` on a new writer.
A `p` longer than the empty buffer goes straight to the connection; what that
call leaves of `p` (nothing, since a TCP write accepts all of `p` or fails) is
copied into the buffer like a short `p`. -/
def Write (conn : Conn) (p : Bytes) : Nat × Option GoError × Writer × Conn :=
  if p.length > defaultBufSize then
    match conn.Write p with
    | (n, some e, c) => (n, some e, { buf := [], err := some e }, c)
    | (n, none, c) => (n + (p.drop n).length, none, { buf := p.drop n, err := none }, c)
  else
    (p.length, none, { buf := p, err := none }, conn)

/-- `(*Writer).Flush()`. -/
def Writer.Flush (b : Writer) (conn : Conn) : Option GoError × Writer × Conn :=
  match b.err with
  | some e => (some e, b, conn)
  | none =>
    if b.buf.length = 0 then
      (none, b, conn)
    else
      match conn.Write b.buf with
      | (n, some e, c) => (some e, { buf := b.buf.drop n, err := some e }, c)
      | (n, none, c) =>
        if n < b.buf.length then
          (some GoError.ErrShortWrite,
            { buf := b.buf.drop n, err := some GoError.ErrShortWrite }, c)
        else
          (none, { buf := [], err := none }, c)

end bufio

/-- `io.LimitReader(conn, limit).Read(p)` with `len(p) = size`, the first `Read`
on a new limited reader: `EOF` without touching the connection when the limit is
zero, else one `Read` of the connection into the first `limit` bytes of `p`. -/
def LimitReader_Read (conn : Conn) (limit size : Nat) : Bytes × Option GoError × Conn :=
  if limit = 0 then
    ([], some GoError.EOF, conn)
  else
    conn.Read (min size limit)

/-- The buffer `make([]byte, size)` after a read stored `got` at its front. -/
def filled (size : Nat) (got : Bytes) : Bytes :=
  got ++ List.replicate (size - got.length) 0

/-- `binary.BigEndian.Uint32(b)`. -/
def BigEndian_Uint32 : Bytes → Nat
  | b0 :: b1 :: b2 :: b3 :: _ => (b3 ||| b2 <<< 8 ||| b1 <<< 16 ||| b0 <<< 24) % 2 ^ 32
  | _ => 0

/-! ## internal/connector -/

namespace connector

/-- `const devicePort = ":9999"`. -/
def devicePort : Bytes := [58, 57, 57, 57, 57]

/-- `const headerLength = 4`. -/
def headerLength : Nat := 4

/-- `readHeader`: one `Read` of a reader limited to `headerLength` bytes into a
buffer of `headerLength` bytes; the buffer and the error of that `Read`. -/
def readHeader (conn : Conn) : Bytes × Option GoError × Conn :=
  match LimitReader_Read conn headerLength headerLength with
  | (got, err, c) => (filled headerLength got, err, c)

/-- `readPayload`: one `Read` of a reader limited to `length` bytes into a
buffer of `length` bytes; the buffer and the error of that `Read`. -/
def readPayload (conn : Conn) (length : Nat) : Bytes × Option GoError × Conn :=
  match LimitReader_Read conn length length with
  | (got, err, c) => (filled length got, err, c)

/-- `payloadLength`. -/
def payloadLength (header : Bytes) : Nat :=
  BigEndian_Uint32 header

/-- What `SendCommand` returns, and the connection it dialled (if the dial
succeeded) as it is when `SendCommand` has returned. -/
structure Outcome where
  response : Bytes
  err : Option GoError
  conn : Option Conn
deriving DecidableEq, Repr

/-- Lines 35 to 45 of `SendCommand`: read the header, read the payload, decrypt. -/
def receive (conn : Conn) : Bytes × Option GoError × Conn :=
  match readHeader conn with
  | (_, some err, c3) => ([], some err, c3)
  | (response, none, c3) =>
    match readPayload c3 (payloadLength response) with
    | (_, some err, c4) => ([], some err, c4)
    | (payload, none, c4) => (crypto.Decrypt payload, none, c4)

/-- Lines 25 to 45 of `SendCommand`, what runs between the `defer` and the
return: write the frame through a new buffered writer, flush, then `receive`. -/
def exchange (conn : Conn) (command : Bytes) : Bytes × Option GoError × Conn :=
  match bufio.Write conn (crypto.EncryptWithHeader command) with
  | (_, some err, _, c1) => ([], some err, c1)
  | (_, none, writer, c1) =>
    match writer.Flush c1 with
    | (some err, _, c2) => ([], some err, c2)
    | (none, _, c2) => receive c2

/-- `SendCommand`: dial, and on success run the exchange and then the deferred
`conn.Close()`. -/
def SendCommand (network : Network) (address command : Bytes) (timeout : Int) : Outcome :=
  match network.DialTimeout (address ++ devicePort) timeout with
  | Except.error err => { response := [], err := some err, conn := none }
  | Except.ok peer =>
    match exchange peer.connect command with
    | (response, err, c) => { response := response, err := err, conn := some c.Close }

end connector

/-! ## pkg/hs100 -/

namespace hs100

/-- The bytes of a string constant of the source (all of them ASCII). -/
def bytesOf (s : String) : Bytes :=
  s.toList.map Char.toNat

/-- `const turnOnCommand`. -/
def turnOnCommand : Bytes :=
  bytesOf "\x7b\"system\":\x7b\"set_relay_state\":\x7b\"state\":1\x7d\x7d\x7d"

/-- `const turnOffCommand`. -/
def turnOffCommand : Bytes :=
  bytesOf "\x7b\"system\":\x7b\"set_relay_state\":\x7b\"state\":0\x7d\x7d\x7d"

/-- `type setRelayResponse`: its one field, `System.SetRelayState.ErrorCode`
(the JSON path `system.set_relay_state.err_code`). -/
structure setRelayResponse where
  ErrorCode : Int
deriving DecidableEq, Repr

/-- `json.Unmarshal` into a `setRelayResponse`, a parameter of the model: the
value left in the result and the error. -/
abbrev Unmarshal := Bytes → setRelayResponse × Option GoError

/-- `type CommandSender interface`: `SendCommand(address, command)` of a sender
in state `σ` returns the response, the error and the sender afterwards. -/
structure CommandSender (σ : Type) where
  SendCommand : σ → Bytes → Bytes → (Bytes × Option GoError) × σ

/-- The world `TurnOn` and `TurnOff` act on: the state of the command sender
and the `(address, command)` pairs it has been handed so far, oldest first. -/
structure World (σ : Type) where
  sender : σ
  calls : List (Bytes × Bytes)

/-- `type Hs100 struct`. -/
structure Hs100 (σ : Type) where
  Address : Bytes
  commandSender : CommandSender σ

/-- The call `hs100.commandSender.SendCommand(address, command)`, recorded. -/
def Hs100.send {σ : Type} (hs100 : Hs100 σ) (w : World σ) (address command : Bytes) :
    (Bytes × Option GoError) × World σ :=
  match hs100.commandSender.SendCommand w.sender address command with
  | (r, s) => (r, { sender := s, calls := w.calls ++ [(address, command)] })

/-- `parseSetRelayResponse`. -/
def parseSetRelayResponse (unmarshal : Unmarshal) (response : Bytes) :
    setRelayResponse × Option GoError :=
  unmarshal response

/-- `(r *setRelayResponse).errorOccurred`. -/
def setRelayResponse.errorOccurred (r : setRelayResponse) : Bool :=
  r.ErrorCode != 0

/-- `(hs100 *Hs100).TurnOn`. -/
def Hs100.TurnOn {σ : Type} (unmarshal : Unmarshal) (hs100 : Hs100 σ) (w : World σ) :
    Option GoError × World σ :=
  match hs100.send w hs100.Address turnOnCommand with
  | ((_, some err), w1) =>
    (some (GoError.wrap err "error on sending turn on command for device"), w1)
  | ((resp, none), w1) =>
    match parseSetRelayResponse unmarshal resp with
    | (_, some err) =>
      (some (GoError.wrap err "Could not parse SystemInformationResponse from device"), w1)
    | (r, none) =>
      if r.errorOccurred then
        (some (GoError.errorsNew "got non zero exit code from device"), w1)
      else
        (none, w1)

/-- `(hs100 *Hs100).TurnOff`. -/
def Hs100.TurnOff {σ : Type} (unmarshal : Unmarshal) (hs100 : Hs100 σ) (w : World σ) :
    Option GoError × World σ :=
  match hs100.send w hs100.Address turnOffCommand with
  | ((_, some err), w1) =>
    (some (GoError.wrap err "error on sending turn on command for device"), w1)
  | ((resp, none), w1) =>
    match parseSetRelayResponse unmarshal resp with
    | (_, some err) =>
      (some (GoError.wrap err "Could not parse SystemInformationResponse from device"), w1)
    | (r, none) =>
      if r.errorOccurred then
        (some (GoError.errorsNew "got non zero exit code from device"), w1)
      else
        (none, w1)

end hs100

/-! ## Networks used to run the model -/

/-- A peer that accepts every write, delivers the given segments and then
closes the stream. -/
def replyingPeer (segments : List Bytes) : Peer :=
  { incoming := segments, terminal := GoError.EOF, writeFault := none }

/-- A network in which every dial reaches `replyingPeer segments`. -/
def replying (segments : List Bytes) : Network :=
  { DialTimeout := fun _ _ => Except.ok (replyingPeer segments) }

/-- A peer that takes `k` bytes and then fails the writes with `e`. -/
def chokingPeer (k : Nat) (e : GoError) : Peer :=
  { incoming := [], terminal := GoError.EOF, writeFault := some (k, e) }

/-- A network in which every dial reaches `chokingPeer k e`. -/
def choking (k : Nat) (e : GoError) : Network :=
  { DialTimeout := fun _ _ => Except.ok (chokingPeer k e) }

/-- A network with nothing listening: every dial fails with `e`. -/
def refusing (e : GoError) : Network :=
  { DialTimeout := fun _ _ => Except.error e }

/-- The address `"10.0.0.7"`. -/
def someAddress : Bytes := [49, 48, 46, 48, 46, 48, 46, 55]

/-- The command `"on"`. -/
def someCommand : Bytes := [111, 110]

/-! # Theorems -/

open connector crypto

theorem Conn.Write_trace (c : Conn) (p : Bytes) :
    (c.Write p).2.2.trace = c.trace ++ [Event.write p] := by
  unfold Conn.Write
  rcases c.writeFault with _ | ⟨k, e⟩
  · rfl
  · dsimp only
    split <;> rfl

theorem Conn.Write_incoming (c : Conn) (p : Bytes) :
    (c.Write p).2.2.incoming = c.incoming ∧ (c.Write p).2.2.terminal = c.terminal := by
  unfold Conn.Write
  rcases c.writeFault with _ | ⟨k, e⟩
  · exact ⟨rfl, rfl⟩
  · dsimp only
    split <;> exact ⟨rfl, rfl⟩

theorem Conn.Write_ok_length (c : Conn) (p : Bytes) (h : (c.Write p).2.1 = none) :
    (c.Write p).1 = p.length := by
  rcases c with ⟨inc, term, wf, tr⟩
  rcases wf with _ | ⟨k, e⟩
  · rfl
  · simp only [Conn.Write] at h ⊢
    by_cases hk : p.length ≤ k
    · simp [hk]
    · simp [hk] at h

theorem encryptFrom_length (key : Nat) (x : Bytes) : (encryptFrom key x).length = x.length := by
  induction x generalizing key with
  | nil => rfl
  | cons p rest ih => simp [encryptFrom, ih]

theorem EncryptWithHeader_length (x : Bytes) : (EncryptWithHeader x).length = 4 + x.length := by
  simp [EncryptWithHeader, header, Encrypt, encryptFrom_length]
  omega

theorem exchange_write_err (c : Conn) (command : Bytes) (e : GoError)
    (h : (c.Write (EncryptWithHeader command)).2.1 = some e) :
    exchange c command = ([], some e, (c.Write (EncryptWithHeader command)).2.2) := by
  have hlen := EncryptWithHeader_length command
  rcases hw : c.Write (EncryptWithHeader command) with ⟨n, err, c1⟩
  rw [hw] at h
  dsimp only at h
  subst h
  unfold exchange bufio.Write
  by_cases hbig : (EncryptWithHeader command).length > bufio.defaultBufSize
  · simp only [hbig, if_true, hw]
  · simp only [hbig, if_false, bufio.Writer.Flush, hw]
    have : (EncryptWithHeader command).length ≠ 0 := by omega
    simp [this]

theorem exchange_write_ok (c : Conn) (command : Bytes)
    (h : (c.Write (EncryptWithHeader command)).2.1 = none) :
    exchange c command = receive (c.Write (EncryptWithHeader command)).2.2 := by
  have hlen := EncryptWithHeader_length command
  have hn := Conn.Write_ok_length c _ h
  rcases hw : c.Write (EncryptWithHeader command) with ⟨n, err, c1⟩
  rw [hw] at h hn
  dsimp only at h hn
  subst h
  subst hn
  unfold exchange bufio.Write
  by_cases hbig : (EncryptWithHeader command).length > bufio.defaultBufSize
  · simp [hbig, hw, bufio.Writer.Flush]
  · simp only [hbig, if_false, bufio.Writer.Flush, hw]
    have : (EncryptWithHeader command).length ≠ 0 := by omega
    simp [this]

theorem BigEndian_Uint32_eq (b0 b1 b2 b3 : Nat) (rest : Bytes)
    (h0 : b0 < 256) (h1 : b1 < 256) (h2 : b2 < 256) (h3 : b3 < 256) :
    BigEndian_Uint32 (b0 :: b1 :: b2 :: b3 :: rest)
      = b0 * 2 ^ 24 + b1 * 2 ^ 16 + b2 * 2 ^ 8 + b3 := by
  have e1 : b3 ||| b2 <<< 8 = 2 ^ 8 * b2 + b3 := by
    rw [Nat.or_comm, Nat.shiftLeft_eq, Nat.mul_comm b2]
    exact (Nat.mul_add_lt_is_or (by omega) b2).symm
  have e2 : (2 ^ 8 * b2 + b3) ||| b1 <<< 16 = 2 ^ 16 * b1 + (2 ^ 8 * b2 + b3) := by
    rw [Nat.or_comm, Nat.shiftLeft_eq, Nat.mul_comm b1]
    exact (Nat.mul_add_lt_is_or (by omega) b1).symm
  have e3 : (2 ^ 16 * b1 + (2 ^ 8 * b2 + b3)) ||| b0 <<< 24
      = 2 ^ 24 * b0 + (2 ^ 16 * b1 + (2 ^ 8 * b2 + b3)) := by
    rw [Nat.or_comm, Nat.shiftLeft_eq, Nat.mul_comm b0]
    exact (Nat.mul_add_lt_is_or (by omega) b0).symm
  simp only [BigEndian_Uint32]
  rw [e1, e2, e3]
  omega

theorem BigEndian_Uint32_header (n : Nat) (hn : n < 2 ^ 32) (rest : Bytes) :
    BigEndian_Uint32 (header n ++ rest) = n := by
  simp only [header, List.cons_append, List.nil_append]
  rw [BigEndian_Uint32_eq _ _ _ _ _ (Nat.mod_lt _ (by norm_num)) (Nat.mod_lt _ (by norm_num))
    (Nat.mod_lt _ (by norm_num)) (Nat.mod_lt _ (by norm_num))]
  simp only [Nat.shiftRight_eq_div_pow]
  omega

theorem recv_some (inc : List Bytes) (size : Nat) (got : Bytes) (rest : List Bytes)
    (hs : 0 < size) (h : recv inc size = some (got, rest)) :
    got ≠ [] ∧ got.length ≤ size := by
  induction inc with
  | nil => simp [recv] at h
  | cons seg tl ih =>
    cases seg with
    | nil => exact ih (by simpa [recv] using h)
    | cons b seg =>
      simp only [recv, Option.some.injEq, Prod.mk.injEq] at h
      obtain ⟨rfl, -⟩ := h
      constructor
      · cases size with
        | zero => omega
        | succ k => simp
      · simp

theorem Conn.Read_trace (c : Conn) (size : Nat) :
    ∃ ev, ev.isRead = true ∧ (c.Read size).2.2.trace = c.trace ++ [ev] := by
  unfold Conn.Read
  split
  · exact ⟨Event.read 0 [] none, rfl, rfl⟩
  · split
    · exact ⟨Event.read size [] (some c.terminal), rfl, rfl⟩
    · rename_i got rest _
      exact ⟨Event.read size got none, rfl, rfl⟩

theorem LimitReader_Read_trace (c : Conn) (limit size : Nat) :
    ∃ evs, (∀ ev ∈ evs, ev.isRead = true) ∧
      (LimitReader_Read c limit size).2.2.trace = c.trace ++ evs := by
  unfold LimitReader_Read
  split
  · exact ⟨[], by simp, by simp⟩
  · obtain ⟨ev, h1, h2⟩ := Conn.Read_trace c (min size limit)
    exact ⟨[ev], by simpa using h1, h2⟩

theorem receive_trace (c : Conn) :
    ∃ evs, (∀ ev ∈ evs, ev.isRead = true) ∧ (receive c).2.2.trace = c.trace ++ evs := by
  unfold receive readHeader
  obtain ⟨evs1, ha1, hb1⟩ := LimitReader_Read_trace c headerLength headerLength
  rcases h1 : LimitReader_Read c headerLength headerLength with ⟨got, err, c3⟩
  rw [h1] at hb1
  dsimp only at hb1 ⊢
  cases err with
  | some e => exact ⟨evs1, ha1, hb1⟩
  | none =>
    dsimp only
    unfold readPayload
    obtain ⟨evs2, ha2, hb2⟩ := LimitReader_Read_trace c3
      (payloadLength (filled headerLength got)) (payloadLength (filled headerLength got))
    rcases h2 : LimitReader_Read c3 (payloadLength (filled headerLength got))
      (payloadLength (filled headerLength got)) with ⟨got2, err2, c4⟩
    rw [h2] at hb2
    dsimp only at hb2 ⊢
    refine ⟨evs1 ++ evs2, ?_, ?_⟩
    · intro ev hev
      rcases List.mem_append.mp hev with h | h
      · exact ha1 ev h
      · exact ha2 ev h
    · cases err2 <;> simp [hb2, hb1]

theorem receive_err_response (c : Conn) (h : (receive c).2.1 ≠ none) : (receive c).1 = [] := by
  unfold receive at h ⊢
  generalize readHeader c = r at h ⊢
  rcases r with ⟨hd, err, c3⟩
  cases err with
  | some e => rfl
  | none =>
    dsimp only at h ⊢
    generalize readPayload c3 (payloadLength hd) = r2 at h ⊢
    rcases r2 with ⟨pl, err2, c4⟩
    cases err2 with
    | some e => rfl
    | none => simp at h

theorem receive_complete (c : Conn) (hd p : Bytes) (rest1 rest2 : List Bytes)
    (h1 : recv c.incoming 4 = some (hd, rest1)) (hlen : hd.length = 4)
    (hN : 1 ≤ payloadLength hd)
    (h2 : recv rest1 (payloadLength hd) = some (p, rest2))
    (hp : p.length = payloadLength hd) :
    (receive c).1 = Decrypt p ∧ (receive c).2.1 = none := by
  have hN0 : payloadLength hd ≠ 0 := by omega
  have hf1 : filled 4 hd = hd := by simp [filled, hlen]
  have hf2 : filled (payloadLength hd) p = p := by simp [filled, hp]
  simp [receive, readHeader, readPayload, LimitReader_Read, Conn.Read, headerLength, h1, hf1,
    hN0, h2, hf2]

theorem decryptFrom_encryptFrom (key : Nat) (x : Bytes) :
    decryptFrom key (encryptFrom key x) = x := by
  induction x generalizing key with
  | nil => rfl
  | cons p rest ih =>
    simp only [encryptFrom, decryptFrom, ih]
    rw [Nat.xor_assoc, Nat.xor_self, Nat.xor_zero]

theorem SendCommand_ok (network : Network) (address command : Bytes) (timeout : Int)
    (peer : Peer) (hdial : network.DialTimeout (address ++ devicePort) timeout = Except.ok peer) :
    SendCommand network address command timeout =
      { response := (exchange peer.connect command).1,
        err := (exchange peer.connect command).2.1,
        conn := some (exchange peer.connect command).2.2.Close } := by
  unfold SendCommand
  rw [hdial]

theorem exchange_err_response (c : Conn) (command : Bytes)
    (h : (exchange c command).2.1 ≠ none) : (exchange c command).1 = [] := by
  cases hw : (c.Write (EncryptWithHeader command)).2.1 with
  | some e => rw [exchange_write_err c command e hw]
  | none =>
    rw [exchange_write_ok c command hw] at h ⊢
    exact receive_err_response _ h

theorem exchange_trace (c : Conn) (command : Bytes) :
    ∃ reads, (∀ ev ∈ reads, ev.isRead = true) ∧
      (exchange c command).2.2.trace
        = c.trace ++ Event.write (EncryptWithHeader command) :: reads := by
  cases hw : (c.Write (EncryptWithHeader command)).2.1 with
  | some e =>
    rw [exchange_write_err c command e hw]
    exact ⟨[], by simp, Conn.Write_trace c _⟩
  | none =>
    rw [exchange_write_ok c command hw]
    obtain ⟨evs, h1, h2⟩ := receive_trace (c.Write (EncryptWithHeader command)).2.2
    refine ⟨evs, h1, ?_⟩
    rw [h2, Conn.Write_trace]
    simp

theorem writesOf_reads (reads : List Event) (h : ∀ ev ∈ reads, ev.isRead = true) :
    writesOf (reads ++ [Event.close]) = [] := by
  induction reads with
  | nil => rfl
  | cons ev tl ih =>
    have h1 := h ev (List.mem_cons_self _ _)
    have h2 := ih (fun e he => h e (List.mem_cons_of_mem _ he))
    cases ev with
    | write p => simp [Event.isRead] at h1
    | read a b c => simpa [writesOf] using h2
    | close => simp [Event.isRead] at h1

theorem count_close_reads (reads : List Event) (h : ∀ ev ∈ reads, ev.isRead = true) :
    reads.count Event.close = 0 := by
  rw [List.count_eq_zero]
  intro hmem
  have := h _ hmem
  simp [Event.isRead] at this

theorem SendCommand_trace (network : Network) (address command : Bytes) (timeout : Int)
    (peer : Peer) (hdial : network.DialTimeout (address ++ devicePort) timeout = Except.ok peer) :
    ∃ c reads, (SendCommand network address command timeout).conn = some c ∧
      (∀ ev ∈ reads, ev.isRead = true) ∧
      c.trace = Event.write (EncryptWithHeader command) :: (reads ++ [Event.close]) := by
  obtain ⟨reads, h1, h2⟩ := exchange_trace peer.connect command
  refine ⟨(exchange peer.connect command).2.2.Close, reads, ?_, h1, ?_⟩
  · rw [SendCommand_ok network address command timeout peer hdial]
  · have h3 : peer.connect.trace = [] := rfl
    rw [h3] at h2
    simp [Conn.Close, h2]


/-- C2: the cipher round trip. For every byte sequence `x`, the empty one
included, decrypting the encryption of `x` gives `x` back, where `Encrypt` and
`Decrypt` are the autokey XOR folds started with the key `0xAB` and continued
with the ciphertext byte just produced or consumed. -/
theorem crypto.Decrypt_Encrypt (x : Bytes) :
    Decrypt (Encrypt x) = x ∧ Decrypt (Encrypt []) = [] :=
  ⟨decryptFrom_encryptFrom initialKey x, rfl⟩

/-- C1: the end-to-end exchange. If the dial succeeds, the connection accepts
the frame, the first read (into 4 bytes) obtains a header `h0 h1 h2 h3` and the
second read (into `N = h0*2^24 + h1*2^16 + h2*2^8 + h3 ≥ 1` bytes) obtains a
payload `p` of exactly `N` bytes, then `SendCommand` returns `Decrypt p` and no
error; so when header and payload are `EncryptWithHeader response`, it returns
`response`. -/
theorem connector.SendCommand_exchange (network : Network) (address command : Bytes)
    (timeout : Int) (peer : Peer) (h0 h1 h2 h3 : Nat) (p : Bytes) (rest1 rest2 : List Bytes)
    (hdial : network.DialTimeout (address ++ devicePort) timeout = Except.ok peer)
    (hwrite : (peer.connect.Write (EncryptWithHeader command)).2.1 = none)
    (hbytes : h0 < 256 ∧ h1 < 256 ∧ h2 < 256 ∧ h3 < 256)
    (hread1 : recv peer.incoming 4 = some ([h0, h1, h2, h3], rest1))
    (hN : 1 ≤ h0 * 2 ^ 24 + h1 * 2 ^ 16 + h2 * 2 ^ 8 + h3)
    (hread2 : recv rest1 (h0 * 2 ^ 24 + h1 * 2 ^ 16 + h2 * 2 ^ 8 + h3) = some (p, rest2))
    (hp : p.length = h0 * 2 ^ 24 + h1 * 2 ^ 16 + h2 * 2 ^ 8 + h3) :
    (SendCommand network address command timeout).response = Decrypt p ∧
    (SendCommand network address command timeout).err = none ∧
    ∀ response : Bytes, EncryptWithHeader response = [h0, h1, h2, h3] ++ p →
      (SendCommand network address command timeout).response = response := by
  obtain ⟨hb0, hb1, hb2, hb3⟩ := hbytes
  have hlen : payloadLength [h0, h1, h2, h3]
      = h0 * 2 ^ 24 + h1 * 2 ^ 16 + h2 * 2 ^ 8 + h3 :=
    BigEndian_Uint32_eq h0 h1 h2 h3 [] hb0 hb1 hb2 hb3
  have hinc := (Conn.Write_incoming peer.connect (EncryptWithHeader command)).1
  have hrecv := receive_complete (peer.connect.Write (EncryptWithHeader command)).2.2
    [h0, h1, h2, h3] p rest1 rest2 (by rw [hinc]; exact hread1) rfl (by rw [hlen]; exact hN)
    (by rw [hlen]; exact hread2) (by rw [hlen]; exact hp)
  rw [SendCommand_ok network address command timeout peer hdial,
    exchange_write_ok peer.connect command hwrite]
  refine ⟨hrecv.1, hrecv.2, ?_⟩
  intro response hresp
  have hsplit := List.append_inj hresp (by simp [header])
  dsimp only
  rw [hrecv.1, ← hsplit.2]
  exact decryptFrom_encryptFrom initialKey response

/-- Witness of C1: a peer that replies `EncryptWithHeader "ok"`, header and
payload in one segment. -/
theorem connector.SendCommand_exchange_witness :
    (SendCommand (replying [EncryptWithHeader [111, 107]]) someAddress someCommand 1000).response
        = Decrypt [196, 175] ∧
    (SendCommand (replying [EncryptWithHeader [111, 107]]) someAddress someCommand 1000).err
        = none ∧
    ∀ response : Bytes, EncryptWithHeader response = [0, 0, 0, 2] ++ [196, 175] →
      (SendCommand (replying [EncryptWithHeader [111, 107]]) someAddress someCommand
        1000).response = response :=
  connector.SendCommand_exchange (replying [EncryptWithHeader [111, 107]]) someAddress
    someCommand 1000
    (replyingPeer [EncryptWithHeader [111, 107]])
    0 0 0 2 [196, 175] [[196, 175]] [[]] rfl rfl (by decide) (by decide) (by decide)
    (by decide) (by decide)

/-- C3: request framing on the wire. Whenever the dial succeeds, the connection
sees exactly one `Write`, its argument is `EncryptWithHeader command`, and it is
the first call made on the connection: every `Read` comes after it and the
`Close` comes last. When that `Write` fails (inside `writer.Write` for a frame
longer than the buffer, inside `writer.Flush` otherwise), `SendCommand` returns
its error and an empty response. -/
theorem connector.SendCommand_writes_frame (network : Network) (address command : Bytes)
    (timeout : Int) (peer : Peer)
    (hdial : network.DialTimeout (address ++ devicePort) timeout = Except.ok peer) :
    ∃ c reads, (SendCommand network address command timeout).conn = some c ∧
      c.trace = Event.write (EncryptWithHeader command) :: (reads ++ [Event.close]) ∧
      (∀ ev ∈ reads, ev.isRead = true) ∧
      writesOf c.trace = [EncryptWithHeader command] ∧
      ∀ e, (peer.connect.Write (EncryptWithHeader command)).2.1 = some e →
        (SendCommand network address command timeout).err = some e ∧
        (SendCommand network address command timeout).response = [] ∧
        reads = [] := by
  obtain ⟨c, reads, hc, hreads, htrace⟩ :=
    SendCommand_trace network address command timeout peer hdial
  refine ⟨c, reads, hc, htrace, hreads, ?_, ?_⟩
  · rw [htrace]
    simp [writesOf, writesOf_reads reads hreads]
  · intro e he
    have hx := exchange_write_err peer.connect command e he
    rw [SendCommand_ok network address command timeout peer hdial] at hc ⊢
    rw [hx]
    refine ⟨rfl, rfl, ?_⟩
    simp only [Option.some.injEq] at hc
    rw [← hc, hx] at htrace
    have hw := Conn.Write_trace peer.connect (EncryptWithHeader command)
    have h3 : peer.connect.trace = [] := rfl
    rw [h3] at hw
    simp [Conn.Close, hw] at htrace
    cases reads with
    | nil => rfl
    | cons a b => simp at htrace

/-- Witness of C3: a peer that takes three bytes and then resets the connection. -/
theorem connector.SendCommand_writes_frame_witness :
    ∃ c reads, (SendCommand (choking 3 (GoError.net 104)) someAddress someCommand 1000).conn
        = some c ∧
      c.trace = Event.write (EncryptWithHeader someCommand) :: (reads ++ [Event.close]) ∧
      (∀ ev ∈ reads, ev.isRead = true) ∧
      writesOf c.trace = [EncryptWithHeader someCommand] ∧
      ∀ e, ((chokingPeer 3 (GoError.net 104)).connect.Write
            (EncryptWithHeader someCommand)).2.1 = some e →
        (SendCommand (choking 3 (GoError.net 104)) someAddress someCommand 1000).err = some e ∧
        (SendCommand (choking 3 (GoError.net 104)) someAddress someCommand 1000).response = [] ∧
        reads = [] :=
  connector.SendCommand_writes_frame (choking 3 (GoError.net 104)) someAddress someCommand 1000
    (chokingPeer 3 (GoError.net 104)) rfl

/-- C7: error and response are mutually exclusive. Whenever `SendCommand`
returns an error the response is empty, and when the dial fails it returns the
dial error and the empty response, no connection having been opened (so nothing
was written or read). -/
theorem connector.SendCommand_error_empty (network : Network) (address command : Bytes)
    (timeout : Int) :
    ((SendCommand network address command timeout).err ≠ none →
      (SendCommand network address command timeout).response = []) ∧
    ∀ e, network.DialTimeout (address ++ devicePort) timeout = Except.error e →
      SendCommand network address command timeout
        = { response := [], err := some e, conn := none } := by
  constructor
  · intro h
    cases hdial : network.DialTimeout (address ++ devicePort) timeout with
    | error e => simp [SendCommand, hdial]
    | ok peer =>
      rw [SendCommand_ok network address command timeout peer hdial] at h ⊢
      exact exchange_err_response _ _ h
  · intro e hdial
    simp [SendCommand, hdial]

/-- Witness of C7: a stream that ends inside the header, and a refused dial. -/
theorem connector.SendCommand_error_empty_witness :
    (SendCommand (replying []) someAddress someCommand 1000).response = [] ∧
    SendCommand (refusing (GoError.net 111)) someAddress someCommand 1000
      = { response := [], err := some (GoError.net 111), conn := none } :=
  ⟨(connector.SendCommand_error_empty (replying []) someAddress someCommand 1000).1 (by decide),
    (connector.SendCommand_error_empty (refusing (GoError.net 111)) someAddress someCommand
      1000).2 (GoError.net 111) rfl⟩

/-- C8: resource release. If the dial succeeds, the connection has been closed
exactly once when `SendCommand` returns, whatever path the exchange took, and
`Close` is the last call made on it; if the dial fails there is no connection.
So no connection is left that was not closed. -/
theorem connector.SendCommand_closes (network : Network) (address command : Bytes)
    (timeout : Int) :
    (∀ peer, network.DialTimeout (address ++ devicePort) timeout = Except.ok peer →
      ∃ c, (SendCommand network address command timeout).conn = some c ∧
        c.closeCount = 1 ∧ c.trace.getLast? = some Event.close) ∧
    (∀ e, network.DialTimeout (address ++ devicePort) timeout = Except.error e →
      (SendCommand network address command timeout).conn = none) ∧
    ∀ c, (SendCommand network address command timeout).conn = some c → c.closeCount = 1 := by
  have key : ∀ peer, network.DialTimeout (address ++ devicePort) timeout = Except.ok peer →
      ∃ c, (SendCommand network address command timeout).conn = some c ∧
        c.closeCount = 1 ∧ c.trace.getLast? = some Event.close := by
    intro peer hdial
    obtain ⟨c, reads, hc, hreads, htrace⟩ :=
      SendCommand_trace network address command timeout peer hdial
    refine ⟨c, hc, ?_, ?_⟩
    · rw [Conn.closeCount, htrace, List.count_cons, List.count_append,
        count_close_reads reads hreads]
      simp
    · rw [htrace, ← List.cons_append, List.getLast?_append]
      simp
  refine ⟨key, ?_, ?_⟩
  · intro e hdial
    simp [SendCommand, hdial]
  · intro c hc
    cases hdial : network.DialTimeout (address ++ devicePort) timeout with
    | error e => simp [SendCommand, hdial] at hc
    | ok peer =>
      obtain ⟨c2, h1, h2, -⟩ := key peer hdial
      rw [h1] at hc
      cases hc
      exact h2

/-- Witness of C8: a successful exchange, and a refused dial. -/
theorem connector.SendCommand_closes_witness :
    (∃ c, (SendCommand (replying [EncryptWithHeader [111, 107]]) someAddress someCommand
        1000).conn = some c ∧ c.closeCount = 1 ∧ c.trace.getLast? = some Event.close) ∧
    (SendCommand (refusing (GoError.net 111)) someAddress someCommand 1000).conn = none :=
  ⟨(connector.SendCommand_closes (replying [EncryptWithHeader [111, 107]]) someAddress
      someCommand 1000).1 _ rfl,
    (connector.SendCommand_closes (refusing (GoError.net 111)) someAddress someCommand
      1000).2.1 _ rfl⟩

/-- C4 on the code: the header announces two payload bytes, the peer delivers
one and closes the stream. `readPayload` makes a single `Read`, which reports no
error, so `SendCommand` returns no error and the two-byte string decrypted from
the one byte received and the zero left in the buffer. -/
theorem connector.SendCommand_truncated_payload :
    payloadLength [0, 0, 0, 2] = 2 ∧
    SendCommand (replying [[0, 0, 0, 2], [202]]) someAddress someCommand 1000
      = { response := [97, 202], err := none,
          conn := some { incoming := [[]], terminal := GoError.EOF, writeFault := none,
                         trace := [Event.write (EncryptWithHeader someCommand),
                                   Event.read 4 [0, 0, 0, 2] none,
                                   Event.read 2 [202] none, Event.close] } } := by
  decide

/-- C5 on the code: the frame `EncryptWithHeader "ab"` gives `"ab"` when it
arrives in one segment, and a different string, with no error, when its two
payload bytes arrive in two segments: the second is never read. -/
theorem connector.SendCommand_chunked_payload :
    EncryptWithHeader [97, 98] = [0, 0, 0, 2, 202, 168] ∧
    (SendCommand (replying [[0, 0, 0, 2, 202, 168]]) someAddress someCommand 1000).response
      = [97, 98] ∧
    (SendCommand (replying [[0, 0, 0, 2, 202, 168]]) someAddress someCommand 1000).err
      = none ∧
    (SendCommand (replying [[0, 0, 0, 2], [202], [168]]) someAddress someCommand 1000).response
      = [97, 202] ∧
    (SendCommand (replying [[0, 0, 0, 2], [202], [168]]) someAddress someCommand 1000).err
      = none ∧
    (SendCommand (replying [[0, 0], [0, 2, 202, 168]]) someAddress someCommand 1000).err
      = some GoError.EOF := by
  decide

/-- C6 on the code: a stream of three bytes that then ends. Delivered in one
segment, `readHeader` hands back a 4-byte header and no error; delivered in two
segments, `SendCommand` takes the second one for the payload and returns no
error. -/
theorem connector.SendCommand_short_header :
    (readHeader (replyingPeer [[0, 0, 1]]).connect).1 = [0, 0, 1, 0] ∧
    (readHeader (replyingPeer [[0, 0, 1]]).connect).2.1 = none ∧
    (SendCommand (replying [[0, 1], [7]]) someAddress someCommand 1000).err = none := by
  decide

/-- C9 on the code: the peer replies `EncryptWithHeader ""`, the frame
`00 00 00 00`. No payload byte is read, the response is empty, and the error is
`io.EOF`, which the limited reader reports for a limit of zero. -/
theorem connector.SendCommand_empty_payload :
    EncryptWithHeader [] = [0, 0, 0, 0] ∧
    SendCommand (replying [EncryptWithHeader []]) someAddress someCommand 1000
      = { response := [], err := some GoError.EOF,
          conn := some { incoming := [[]], terminal := GoError.EOF, writeFault := none,
                         trace := [Event.write (EncryptWithHeader someCommand),
                                   Event.read 4 [0, 0, 0, 0] none, Event.close] } } := by
  decide

theorem readPayload_single_read (c : Conn) (length : Nat) (got : Bytes) (rest : List Bytes)
    (hlen : 0 < length) (h : recv c.incoming length = some (got, rest)) :
    (readPayload c length).1 = got ++ List.replicate (length - got.length) 0 ∧
    (readPayload c length).2.1 = none := by
  have h0 : length ≠ 0 := by omega
  simp [readPayload, LimitReader_Read, Conn.Read, h0, h, filled]

theorem hs100.TurnOn_eq {σ : Type} (unmarshal : hs100.Unmarshal) (hs : hs100.Hs100 σ)
    (w : hs100.World σ) :
    (hs.TurnOn unmarshal w).2.calls = w.calls ++ [(hs.Address, hs100.turnOnCommand)] ∧
    ((hs.TurnOn unmarshal w).1 = none ↔
      (hs.commandSender.SendCommand w.sender hs.Address hs100.turnOnCommand).1.2 = none ∧
      (unmarshal (hs.commandSender.SendCommand w.sender hs.Address hs100.turnOnCommand).1.1).2
        = none ∧
      (unmarshal (hs.commandSender.SendCommand w.sender hs.Address
        hs100.turnOnCommand).1.1).1.ErrorCode = 0) := by
  unfold hs100.Hs100.TurnOn hs100.Hs100.send hs100.parseSetRelayResponse
    hs100.setRelayResponse.errorOccurred
  generalize hs.commandSender.SendCommand w.sender hs.Address hs100.turnOnCommand = r
  rcases r with ⟨⟨resp, err⟩, s⟩
  cases err with
  | some e => simp
  | none =>
    dsimp only
    generalize unmarshal resp = u
    rcases u with ⟨r, perr⟩
    cases perr with
    | some e => simp
    | none =>
      dsimp only
      by_cases hz : r.ErrorCode = 0 <;> simp [hz]

theorem hs100.TurnOff_eq {σ : Type} (unmarshal : hs100.Unmarshal) (hs : hs100.Hs100 σ)
    (w : hs100.World σ) :
    (hs.TurnOff unmarshal w).2.calls = w.calls ++ [(hs.Address, hs100.turnOffCommand)] ∧
    ((hs.TurnOff unmarshal w).1 = none ↔
      (hs.commandSender.SendCommand w.sender hs.Address hs100.turnOffCommand).1.2 = none ∧
      (unmarshal (hs.commandSender.SendCommand w.sender hs.Address hs100.turnOffCommand).1.1).2
        = none ∧
      (unmarshal (hs.commandSender.SendCommand w.sender hs.Address
        hs100.turnOffCommand).1.1).1.ErrorCode = 0) := by
  unfold hs100.Hs100.TurnOff hs100.Hs100.send hs100.parseSetRelayResponse
    hs100.setRelayResponse.errorOccurred
  generalize hs.commandSender.SendCommand w.sender hs.Address hs100.turnOffCommand = r
  rcases r with ⟨⟨resp, err⟩, s⟩
  cases err with
  | some e => simp
  | none =>
    dsimp only
    generalize unmarshal resp = u
    rcases u with ⟨r, perr⟩
    cases perr with
    | some e => simp
    | none =>
      dsimp only
      by_cases hz : r.ErrorCode = 0 <;> simp [hz]

/-- C10: the relay commands. `TurnOn` hands the sender exactly one command,
`turnOnCommand`, for `hs100.Address`, and `TurnOff` exactly one, `turnOffCommand`;
each returns nil if and only if the sender returned no error, `json.Unmarshal`
of the response returned no error, and the parsed `err_code` is 0. The two
constants are the JSON texts of the source. -/
theorem hs100.relay_commands {σ : Type} (unmarshal : hs100.Unmarshal) (hs : hs100.Hs100 σ)
    (w : hs100.World σ) :
    ((hs.TurnOn unmarshal w).2.calls = w.calls ++ [(hs.Address, hs100.turnOnCommand)] ∧
      ((hs.TurnOn unmarshal w).1 = none ↔
        (hs.commandSender.SendCommand w.sender hs.Address hs100.turnOnCommand).1.2 = none ∧
        (unmarshal (hs.commandSender.SendCommand w.sender hs.Address hs100.turnOnCommand).1.1).2
          = none ∧
        (unmarshal (hs.commandSender.SendCommand w.sender hs.Address
          hs100.turnOnCommand).1.1).1.ErrorCode = 0)) ∧
    ((hs.TurnOff unmarshal w).2.calls = w.calls ++ [(hs.Address, hs100.turnOffCommand)] ∧
      ((hs.TurnOff unmarshal w).1 = none ↔
        (hs.commandSender.SendCommand w.sender hs.Address hs100.turnOffCommand).1.2 = none ∧
        (unmarshal (hs.commandSender.SendCommand w.sender hs.Address hs100.turnOffCommand).1.1).2
          = none ∧
        (unmarshal (hs.commandSender.SendCommand w.sender hs.Address
          hs100.turnOffCommand).1.1).1.ErrorCode = 0)) ∧
    hs100.turnOnCommand
      = hs100.bytesOf "\x7b\"system\":\x7b\"set_relay_state\":\x7b\"state\":1\x7d\x7d\x7d" ∧
    hs100.turnOffCommand
      = hs100.bytesOf "\x7b\"system\":\x7b\"set_relay_state\":\x7b\"state\":0\x7d\x7d\x7d" :=
  ⟨hs100.TurnOn_eq unmarshal hs w, hs100.TurnOff_eq unmarshal hs w, rfl, rfl⟩

end TplinkHs100
